import Mathlib

/-!
Verification of the resource-packaging core in
src/pyoxidizer/src/py_packaging/embedded_resource.rs.

Strings of the program are embedded as lists of characters (the well-founded
recursion inside the builtin String order does not reduce in the kernel; the
lexicographic order on character lists does, and it is the same order).  The
BTreeMap and BTreeSet containers of the source are embedded as association
lists, respectively lists, kept sorted by that order: insertion walks to the
ordered position, exactly the iteration-order semantics the Rust containers
provide.  Fallible Rust functions returning anyhow Result become functions
into Except with the error message as the payload.
-/

namespace PyOx

/-- Character strings of the program, as character lists. -/
abbrev Str : Type := List Char

/-- Shorthand to write a character-list string from a literal. -/
def chars (s : String) : Str := s.data

/- ===================== ordered maps and sets ========================== -/

/-- The BTreeMap of the source, embedded as an association list kept sorted
by key. -/
abbrev Map (V : Type) : Type := List (Str × V)

/-- Keys of a map in iteration order. -/
def mapKeys {V : Type} (m : Map V) : List Str := m.map Prod.fst

/-- Lookup by key, mirroring BTreeMap get. -/
def mapLookup {V : Type} (k : Str) : Map V → Option V
  | [] => none
  | (k', v) :: rest => if k = k' then some v else mapLookup k rest

/-- BTreeMap insert: replaces the value when the key is present, otherwise
places the pair at its ordered position. -/
def mapInsert {V : Type} (k : Str) (v : V) : Map V → Map V
  | [] => [(k, v)]
  | (k', v') :: rest =>
    if k < k' then (k, v) :: (k', v') :: rest
    else if k = k' then (k, v) :: rest
    else (k', v') :: mapInsert k v rest

/-- The entry-or-insert-with-then-mutate pattern of the source: the new value
under the key is f applied to the present value, or to the supplied default
when the key is absent. -/
def mapUpsert {V : Type} (k : Str) (dflt : V) (f : V → V) : Map V → Map V
  | [] => [(k, f dflt)]
  | (k', v') :: rest =>
    if k < k' then (k, f dflt) :: (k', v') :: rest
    else if k = k' then (k', f v') :: rest
    else (k', v') :: mapUpsert k dflt f rest

/-- get-mut on an existing key: applies f when the key is present. -/
def mapAdjust {V : Type} (k : Str) (f : V → V) : Map V → Map V
  | [] => []
  | (k', v') :: rest =>
    if k = k' then (k', f v') :: rest else (k', v') :: mapAdjust k f rest

/-- Sorted-by-key invariant of the embedded BTreeMap. -/
def MapOrdered {V : Type} (m : Map V) : Prop :=
  List.Pairwise (fun a b => a.1 < b.1) m

/-- The BTreeSet of the source: a list kept sorted, duplicates skipped. -/
def setInsert (x : Str) : List Str → List Str
  | [] => [x]
  | y :: rest =>
    if x < y then x :: y :: rest
    else if x = y then y :: rest
    else y :: setInsert x rest

/-- Inserting every element of a list into a set, in order. -/
def setInsertAll (s : List Str) (l : List Str) : List Str :=
  l.foldl (fun acc x => setInsert x acc) s

/-- Sorted invariant of the embedded BTreeSet. -/
def SetOrdered (l : List Str) : Prop := List.Pairwise (fun a b : Str => a < b) l

/- ===================== map lemmas ========================== -/

theorem mapInsert_eq_upsert {V : Type} (k : Str) (v : V) (m : Map V) :
    mapInsert k v m = mapUpsert k v (fun _ => v) m := by
  induction m with
  | nil => rfl
  | cons kv rest ih =>
    obtain ⟨k', v'⟩ := kv
    simp only [mapInsert, mapUpsert]
    by_cases h1 : k < k'
    · rw [if_pos h1, if_pos h1]
    · by_cases h2 : k = k'
      · rw [if_neg h1, if_neg h1, if_pos h2, if_pos h2, h2]
      · rw [if_neg h1, if_neg h1, if_neg h2, if_neg h2, ih]

theorem mem_mapKeys_upsert {V : Type} (k : Str) (d : V) (f : V → V)
    (m : Map V) (x : Str) :
    x ∈ mapKeys (mapUpsert k d f m) ↔ x = k ∨ x ∈ mapKeys m := by
  induction m with
  | nil => simp [mapUpsert, mapKeys]
  | cons kv rest ih =>
    obtain ⟨k', v'⟩ := kv
    simp only [mapUpsert]
    by_cases h1 : k < k'
    · rw [if_pos h1]
      simp only [mapKeys, List.map_cons, List.mem_cons]
    · by_cases h2 : k = k'
      · rw [if_neg h1, if_pos h2]
        subst h2
        simp only [mapKeys, List.map_cons, List.mem_cons]
        tauto
      · rw [if_neg h1, if_neg h2]
        show x ∈ mapKeys ((k', v') :: mapUpsert k d f rest) ↔ _
        simp only [mapKeys, List.map_cons, List.mem_cons] at ih ⊢
        rw [ih]
        tauto

theorem mem_mapKeys_insert {V : Type} (k : Str) (v : V) (m : Map V) (x : Str) :
    x ∈ mapKeys (mapInsert k v m) ↔ x = k ∨ x ∈ mapKeys m := by
  rw [mapInsert_eq_upsert]
  exact mem_mapKeys_upsert k v (fun _ => v) m x

theorem mapUpsert_ordered {V : Type} (k : Str) (d : V) (f : V → V)
    {m : Map V} (h : MapOrdered m) : MapOrdered (mapUpsert k d f m) := by
  induction m with
  | nil =>
    simp [mapUpsert, MapOrdered]
  | cons kv rest ih =>
    obtain ⟨k', v'⟩ := kv
    rw [MapOrdered, List.pairwise_cons] at h
    obtain ⟨hhead, hrest⟩ := h
    simp only [mapUpsert]
    by_cases h1 : k < k'
    · rw [if_pos h1, MapOrdered, List.pairwise_cons]
      refine ⟨?_, List.pairwise_cons.mpr ⟨hhead, hrest⟩⟩
      intro b hb
      rcases List.mem_cons.mp hb with hb | hb
      · exact hb ▸ h1
      · exact lt_trans h1 (hhead b hb)
    · by_cases h2 : k = k'
      · rw [if_neg h1, if_pos h2, MapOrdered, List.pairwise_cons]
        exact ⟨hhead, hrest⟩
      · rw [if_neg h1, if_neg h2, MapOrdered, List.pairwise_cons]
        refine ⟨?_, ih hrest⟩
        intro b hb
        have hb' : b.1 = k ∨ b.1 ∈ mapKeys rest :=
          (mem_mapKeys_upsert k d f rest b.1).mp (List.mem_map_of_mem Prod.fst hb)
        rcases hb' with hb' | hb'
        · rw [hb']
          exact lt_of_le_of_ne (not_lt.mp h1) (Ne.symm h2)
        · rcases List.mem_map.mp hb' with ⟨c, hc, hceq⟩
          rw [← hceq]
          exact hhead c hc

theorem mapInsert_ordered {V : Type} (k : Str) (v : V)
    {m : Map V} (h : MapOrdered m) : MapOrdered (mapInsert k v m) := by
  rw [mapInsert_eq_upsert]
  exact mapUpsert_ordered k v (fun _ => v) h

theorem mapLookup_eq_none_iff {V : Type} (k : Str) (m : Map V) :
    mapLookup k m = none ↔ k ∉ mapKeys m := by
  induction m with
  | nil => simp [mapLookup, mapKeys]
  | cons kv rest ih =>
    obtain ⟨k', v'⟩ := kv
    simp only [mapLookup, mapKeys, List.map_cons, List.mem_cons]
    by_cases h : k = k'
    · subst h
      rw [if_pos rfl]
      constructor
      · intro hnone
        exact absurd hnone (by simp)
      · intro hmem
        exact absurd (Or.inl rfl) hmem
    · rw [if_neg h, ih]
      constructor
      · intro hnk hmem
        rcases hmem with he | hm
        · exact h he
        · exact hnk hm
      · intro hall hm
        exact hall (Or.inr hm)

theorem mapLookup_mem {V : Type} {k : Str} {v : V} {m : Map V}
    (h : mapLookup k m = some v) : (k, v) ∈ m := by
  induction m with
  | nil => simp [mapLookup] at h
  | cons kv rest ih =>
    obtain ⟨k', v'⟩ := kv
    simp only [mapLookup] at h
    by_cases he : k = k'
    · rw [if_pos he] at h
      subst he
      cases h
      exact List.mem_cons_self _ _
    · rw [if_neg he] at h
      exact List.mem_cons_of_mem _ (ih h)

theorem mapLookup_isSome_of_mem_keys {V : Type} {k : Str} {m : Map V}
    (h : k ∈ mapKeys m) : ∃ v, mapLookup k m = some v := by
  rcases he : mapLookup k m with _ | v
  · rw [mapLookup_eq_none_iff] at he
    exact absurd h he
  · exact ⟨v, rfl⟩

/-- Below the least key of an ordered map, lookup finds nothing. -/
theorem mapLookup_eq_none_of_lt_head {V : Type} {k k' : Str} {v' : V}
    {rest : Map V} (hord : MapOrdered ((k', v') :: rest))
    (hlt : k < k') : mapLookup k ((k', v') :: rest) = none := by
  rw [mapLookup_eq_none_iff]
  intro hmem
  rw [MapOrdered, List.pairwise_cons] at hord
  simp only [mapKeys, List.map_cons, List.mem_cons] at hmem
  rcases hmem with h | h
  · exact absurd h (ne_of_lt hlt)
  · rcases List.mem_map.mp h with ⟨c, hc, hceq⟩
    exact absurd (lt_trans hlt (hceq ▸ hord.1 c hc)) (lt_irrefl k)

theorem mapLookup_upsert_self {V : Type} (k : Str) (d : V) (f : V → V)
    {m : Map V} (hord : MapOrdered m) :
    mapLookup k (mapUpsert k d f m) = some (f ((mapLookup k m).getD d)) := by
  induction m with
  | nil => simp [mapUpsert, mapLookup]
  | cons kv rest ih =>
    obtain ⟨k', v'⟩ := kv
    simp only [mapUpsert]
    by_cases h1 : k < k'
    · rw [if_pos h1]
      rw [mapLookup_eq_none_of_lt_head hord h1]
      simp [mapLookup]
    · by_cases h2 : k = k'
      · rw [if_neg h1, if_pos h2]
        subst h2
        simp [mapLookup]
      · rw [if_neg h1, if_neg h2]
        rw [MapOrdered, List.pairwise_cons] at hord
        simp only [mapLookup, if_neg h2]
        exact ih hord.2

theorem mapLookup_upsert_ne {V : Type} {q k : Str} (d : V) (f : V → V)
    (m : Map V) (hne : q ≠ k) :
    mapLookup q (mapUpsert k d f m) = mapLookup q m := by
  induction m with
  | nil => simp [mapUpsert, mapLookup, hne]
  | cons kv rest ih =>
    obtain ⟨k', v'⟩ := kv
    simp only [mapUpsert]
    by_cases h1 : k < k'
    · rw [if_pos h1]
      simp [mapLookup, hne]
    · by_cases h2 : k = k'
      · rw [if_neg h1, if_pos h2]
        subst h2
        simp [mapLookup, hne]
      · rw [if_neg h1, if_neg h2]
        simp only [mapLookup]
        by_cases h3 : q = k'
        · rw [if_pos h3, if_pos h3]
        · rw [if_neg h3, if_neg h3, ih]

theorem mapLookup_insert_self {V : Type} (k : Str) (v : V)
    {m : Map V} (hord : MapOrdered m) :
    mapLookup k (mapInsert k v m) = some v := by
  rw [mapInsert_eq_upsert, mapLookup_upsert_self k v (fun _ => v) hord]

theorem mapLookup_insert_ne {V : Type} {q k : Str} (v : V)
    (m : Map V) (hne : q ≠ k) :
    mapLookup q (mapInsert k v m) = mapLookup q m := by
  rw [mapInsert_eq_upsert, mapLookup_upsert_ne v (fun _ => v) m hne]

theorem mapOrdered_keys_nodup {V : Type} {m : Map V} (h : MapOrdered m) :
    (mapKeys m).Nodup := by
  rw [MapOrdered] at h
  exact (List.pairwise_map).mpr (h.imp (fun hab => ne_of_lt hab))

/- ===================== set lemmas ========================== -/

theorem mem_setInsert (x y : Str) (l : List Str) :
    y ∈ setInsert x l ↔ y = x ∨ y ∈ l := by
  induction l with
  | nil => simp [setInsert]
  | cons z rest ih =>
    simp only [setInsert]
    by_cases h1 : x < z
    · rw [if_pos h1]
      simp only [List.mem_cons]
    · by_cases h2 : x = z
      · rw [if_neg h1, if_pos h2]
        subst h2
        simp only [List.mem_cons]
        tauto
      · rw [if_neg h1, if_neg h2]
        simp only [List.mem_cons]
        rw [ih]
        tauto

theorem setInsert_ordered (x : Str) {l : List Str} (h : SetOrdered l) :
    SetOrdered (setInsert x l) := by
  induction l with
  | nil => simp [setInsert, SetOrdered]
  | cons z rest ih =>
    rw [SetOrdered, List.pairwise_cons] at h
    obtain ⟨hhead, hrest⟩ := h
    simp only [setInsert]
    by_cases h1 : x < z
    · rw [if_pos h1, SetOrdered, List.pairwise_cons]
      refine ⟨?_, List.pairwise_cons.mpr ⟨hhead, hrest⟩⟩
      intro b hb
      rcases List.mem_cons.mp hb with hb | hb
      · exact hb ▸ h1
      · exact lt_trans h1 (hhead b hb)
    · by_cases h2 : x = z
      · rw [if_neg h1, if_pos h2, SetOrdered, List.pairwise_cons]
        exact ⟨hhead, hrest⟩
      · rw [if_neg h1, if_neg h2, SetOrdered, List.pairwise_cons]
        refine ⟨?_, ih hrest⟩
        intro b hb
        rcases (mem_setInsert x b rest).mp hb with hb | hb
        · rw [hb]
          exact lt_of_le_of_ne (not_lt.mp h1) (Ne.symm h2)
        · exact hhead b hb

theorem mem_setInsertAll (s l : List Str) (x : Str) :
    x ∈ setInsertAll s l ↔ x ∈ s ∨ x ∈ l := by
  induction l generalizing s with
  | nil => simp [setInsertAll]
  | cons z rest ih =>
    simp only [setInsertAll, List.foldl_cons]
    rw [show (List.foldl (fun acc x => setInsert x acc) (setInsert z s) rest) =
      setInsertAll (setInsert z s) rest from rfl, ih, mem_setInsert]
    simp only [List.mem_cons]
    tauto

theorem setInsertAll_ordered {s : List Str} (l : List Str)
    (h : SetOrdered s) : SetOrdered (setInsertAll s l) := by
  induction l generalizing s with
  | nil => exact h
  | cons z rest ih =>
    simp only [setInsertAll, List.foldl_cons]
    exact ih (setInsert_ordered z h)

theorem setOrdered_nodup {l : List Str} (h : SetOrdered l) : l.Nodup :=
  h.imp (fun hab => ne_of_lt hab)

end PyOx

namespace PyOx

/- ===================== basic data model ========================== -/

/-- Payload reference of the external python-packaging crate: bytes resident
in memory or a filesystem path read lazily.  Modelled from the spec: a Data
Location resolves idempotently and without side effects, so path reads are a
pure function from paths to bytes, supplied as an environment. -/
inductive DataLocation
  | Memory (data : List Nat)
  | Path (path : Str)
  deriving DecidableEq

/-- The pure filesystem environment a packaging run reads paths through. -/
abbrev FileSys : Type := Str → List Nat

/-- Resolve a data location to bytes under a filesystem environment. -/
def DataLocation.resolve (loc : DataLocation) (fs : FileSys) : List Nat :=
  match loc with
  | .Memory data => data
  | .Path p => fs p

/-- Modelled from the spec: the flavor enumeration of a resource entry
(Module, Package, Extension, SharedLibrary, Resource); the enum lives in the
external packed-resources crate.  The spec states that ancestor entries
created by package inference carry default flavor Package, so Package is the
default. -/
inductive ResourceFlavor
  | Module
  | Package
  | Extension
  | SharedLibrary
  | Resource
  deriving DecidableEq

/-- Modelled from the spec and the collector usage in the source: the
pre-packaging record of one named resource held by the resource collector
(crate python-packaging, not part of this repository).  Field names follow
the source.  Unset optional payloads default to none. -/
structure PrePackagedResource where
  flavor : ResourceFlavor := ResourceFlavor.Package
  name : Str := []
  is_package : Bool := false
  in_memory_source : Option DataLocation := none
  in_memory_bytecode_source : Option DataLocation := none
  in_memory_bytecode_opt1_source : Option DataLocation := none
  in_memory_bytecode_opt2_source : Option DataLocation := none
  relative_path_module_source : Option (Str × DataLocation) := none
  relative_path_bytecode_source : Option (Str × Str × DataLocation) := none
  relative_path_bytecode_opt1_source : Option (Str × Str × DataLocation) := none
  relative_path_bytecode_opt2_source : Option (Str × Str × DataLocation) := none
  in_memory_extension_module_shared_library : Option DataLocation := none
  relative_path_extension_module_shared_library : Option (Str × Str × DataLocation) := none
  relative_path_shared_library : Option (Str × DataLocation) := none
  in_memory_shared_library : Option DataLocation := none
  shared_library_dependency_names : Option (List Str) := none
  deriving DecidableEq

/-- Modelled from the spec: the packed Resource record of the external
resource-format crate, restricted to the fields the claims touch (identity,
package flag and the six bytecode payload fields the pipeline writes).  The
default (all payloads empty, flavor Package) is the empty entry package
inference creates for a missing ancestor. -/
structure Resource where
  flavor : ResourceFlavor := ResourceFlavor.Package
  name : Str := []
  is_package : Bool := false
  in_memory_bytecode : Option (List Nat) := none
  in_memory_bytecode_opt1 : Option (List Nat) := none
  in_memory_bytecode_opt2 : Option (List Nat) := none
  relative_path_module_bytecode : Option Str := none
  relative_path_module_bytecode_opt1 : Option Str := none
  relative_path_module_bytecode_opt2 : Option Str := none
  deriving DecidableEq

/-- Modelled from the spec: the conversion Resource try-from at the top of the
packaging loop copies the identity fields; bytecode payloads are attached
afterwards by the materialization pipeline. -/
def resourceFrom (m : PrePackagedResource) : Resource :=
  { flavor := m.flavor, name := m.name, is_package := m.is_package }

/-- Holds state necessary to link an extension module into libpython
(struct ExtensionModuleBuildState of the source).  The five BTreeSet fields
are embedded as sorted duplicate-free lists. -/
structure ExtensionModuleBuildState where
  init_fn : Option Str
  link_object_files : List DataLocation
  link_frameworks : List Str
  link_system_libraries : List Str
  link_static_libraries : List Str
  link_dynamic_libraries : List Str
  link_external_libraries : List Str
  deriving DecidableEq

/-- A BTreeSet built from the elements of a list. -/
def setFromList (l : List Str) : List Str := setInsertAll [] l

/-- Modelled from the spec: one link dependency of a distribution extension
module (type from the standalone-distribution module of this repository,
which is not under src); fields as the source reads them. -/
structure LibraryDependency where
  name : Str
  framework : Bool
  system : Bool
  static_path : Option Str
  dynamic_path : Option Str
  deriving DecidableEq

/-- Modelled from the spec: a pre-built extension module of the Python
distribution (type from the standalone-distribution module of this
repository, not under src), restricted to the fields the source reads. -/
structure DistributionExtensionModule where
  module : Str
  init_fn : Option Str
  builtin_default : Bool
  object_paths : List Str
  shared_library : Option Str
  links : List LibraryDependency
  deriving DecidableEq

/-- Modelled from the spec: a caller-supplied extension module (external
python-packaging crate), fields as the source and its tests use them. -/
structure PythonExtensionModule where
  name : Str
  init_fn : Option Str
  extension_file_suffix : Str
  extension_data : Option DataLocation
  object_file_data : List (List Nat)
  is_package : Bool
  libraries : List Str
  deriving DecidableEq

/-- Modelled from the spec: a source module descriptor (external crate). -/
structure PythonModuleSource where
  name : Str
  source : DataLocation
  is_package : Bool
  cache_tag : Str
  deriving DecidableEq

/-- The three bytecode optimization levels. -/
inductive BytecodeOptimizationLevel
  | Zero
  | One
  | Two
  deriving DecidableEq

/-- The two compiler invocation modes of the source. -/
inductive CompileMode
  | Bytecode
  | PycUncheckedHash
  deriving DecidableEq

/-- Modelled from the spec: the external bytecode compiler service, a
deterministic black box from (source bytes, qualified name, optimization
level, mode) to compiled bytes. -/
abbrev Compiler : Type :=
  List Nat → Str → BytecodeOptimizationLevel → CompileMode → List Nat

/-- Modelled from the spec: a bytecode-from-source descriptor (external
crate), as the packaging loop constructs it to derive destination paths. -/
structure PythonModuleBytecodeFromSource where
  name : Str
  source : DataLocation
  optimize_level : BytecodeOptimizationLevel
  is_package : Bool
  cache_tag : Str
  deriving DecidableEq

/- ===================== paths and dotted names ========================== -/

/-- Split a character list at every occurrence of a separator. -/
def splitOnChar (sep : Char) : Str → List Str
  | [] => [[]]
  | c :: rest =>
    match splitOnChar sep rest with
    | [] => [[]]
    | s :: ss => if c = sep then [] :: s :: ss else (c :: s) :: ss

/-- Join pieces with a separator character. -/
def joinWith (sep : Char) : List Str → Str
  | [] => []
  | [s] => s
  | s :: rest => s ++ sep :: joinWith sep rest

/-- PathBuf join: an empty left side contributes no component. -/
def pathJoin (a b : Str) : Str := if a = [] then b else a ++ '/' :: b

/-- Final path component (the Rust file-name call on a path). -/
def fileName (p : Str) : Str := (splitOnChar '/' p).getLastD []

/-- Modelled from the spec: the on-disk path of a relative-path source module
(dots become directories, packages install as their init file). -/
def sourceRelPath (name : Str) (is_package : Bool) : Str :=
  joinWith '/' (splitOnChar '.' name) ++
    (if is_package then chars "/__init__.py" else chars ".py")

/-- Suffix convention of the spec: no suffix at level 0, opt-1 and opt-2 at
levels 1 and 2. -/
def bytecodeSuffix : BytecodeOptimizationLevel → Str
  | .Zero => []
  | .One => chars ".opt-1"
  | .Two => chars ".opt-2"

/-- Modelled from the spec: the destination path of relative-path bytecode,
derived deterministically from the dotted name, package flag, cache tag and
optimization level (a pycache file next to the module, tagged with the cache
tag and the level suffix). -/
def PythonModuleBytecodeFromSource.resolve_path
    (m : PythonModuleBytecodeFromSource) (pfx : Str) : Str :=
  let parts := splitOnChar '.' m.name
  let dir := if m.is_package then parts else parts.dropLast
  let base := if m.is_package then chars "__init__" else parts.getLastD []
  pathJoin pfx
    (joinWith '/' (dir ++ [chars "__pycache__"]) ++ '/' ::
      (base ++ '.' :: m.cache_tag ++ bytecodeSuffix m.optimize_level ++ chars ".pyc"))

/-- Proper dotted prefixes of a name: for every dot at position i, the first
i characters.  Modelled from the spec: a.b.c implies packages a and a.b. -/
def ancestors (n : Str) : List Str :=
  (List.range n.length).filterMap (fun i =>
    if n.getD i ' ' = '.' then some (n.take i) else none)

/-- Modelled from the spec: the set of ancestor package names implied by a
collection of dotted module names (external module-util helper). -/
def packages_from_module_names (names : List Str) : List Str :=
  names.foldl (fun acc n => setInsertAll acc (ancestors n)) []

/- ===================== file manifest ========================== -/

/-- One file of the install manifest: bytes plus the executable bit. -/
structure FileContent where
  data : List Nat
  executable : Bool
  deriving DecidableEq

/-- Modelled from the spec: the file manifest of the app-packaging module of
this repository (not under src), an ordered mapping from destination path to
content. -/
abbrev FileManifest : Type := Map FileContent

/-- Modelled from the spec: adding a file errors on conflicting content for
an already-present path, otherwise records the file. -/
def FileManifest.add_file (m : FileManifest) (path : Str) (c : FileContent) :
    Except Str FileManifest :=
  match mapLookup path m with
  | some c' => if c' = c then .ok m else .error (chars "conflicting content for path")
  | none => .ok (mapInsert path c m)

/- ===================== resource collector ========================== -/

/-- The two placement locations a policy governs. -/
inductive ResourceLocation
  | InMemory
  | RelativePath
  deriving DecidableEq

/-- Modelled from the spec: the active placement policy (in-memory only, or
filesystem-relative only with an install path). -/
inductive PythonResourcesPolicy
  | InMemoryOnly
  | FilesystemRelativeOnly (pfx : Str)
  deriving DecidableEq

/-- Modelled from the spec: the resource collector of the external
python-packaging crate: the active policy, the bytecode cache tag, and the
ordered name-to-entry table. -/
structure PythonResourceCollector where
  policy : PythonResourcesPolicy
  cache_tag : Str
  resources : Map PrePackagedResource
  deriving DecidableEq

/-- Modelled from the spec: an add whose placement the active policy forbids
fails with a PolicyViolation error. -/
def PythonResourceCollector.check_policy (c : PythonResourceCollector)
    (loc : ResourceLocation) : Except Str Unit :=
  match c.policy, loc with
  | .InMemoryOnly, .InMemory => .ok ()
  | .InMemoryOnly, .RelativePath =>
    .error (chars "PolicyViolation: policy only allows in-memory resources")
  | .FilesystemRelativeOnly _, .RelativePath => .ok ()
  | .FilesystemRelativeOnly _, .InMemory =>
    .error (chars "PolicyViolation: policy only allows filesystem-relative resources")

/-- Modelled from the spec and the first test of the source: the collector
records a relative-path source module under its name with flavor Module and
the (prefix, source) payload, after the policy admits relative placement. -/
def PythonResourceCollector.add_relative_path_python_module_source
    (c : PythonResourceCollector) (module : PythonModuleSource) (pfx : Str) :
    Except Str PythonResourceCollector := do
  let _ ← c.check_policy ResourceLocation.RelativePath
  let res := mapUpsert module.name
    { flavor := ResourceFlavor.Module, name := module.name }
    (fun e =>
      { e with flavor := ResourceFlavor.Module,
               is_package := module.is_package,
               relative_path_module_source := some (pfx, module.source) })
    c.resources
  .ok { c with resources := res }

/-- Modelled from the spec: the collector records a relative-path
bytecode-from-source module, filing the (prefix, cache tag, source) triple
under the field of its optimization level. -/
def PythonResourceCollector.add_relative_path_python_module_bytecode_from_source
    (c : PythonResourceCollector) (module : PythonModuleBytecodeFromSource)
    (pfx : Str) : Except Str PythonResourceCollector := do
  let _ ← c.check_policy ResourceLocation.RelativePath
  let res := mapUpsert module.name
    { flavor := ResourceFlavor.Module, name := module.name }
    (fun e0 =>
      let e :=
        { e0 with flavor := ResourceFlavor.Module,
                  is_package := module.is_package }
      match module.optimize_level with
      | .Zero =>
        { e with relative_path_bytecode_source := some (pfx, module.cache_tag, module.source) }
      | .One =>
        { e with relative_path_bytecode_opt1_source := some (pfx, module.cache_tag, module.source) }
      | .Two =>
        { e with relative_path_bytecode_opt2_source := some (pfx, module.cache_tag, module.source) })
    c.resources
  .ok { c with resources := res }

/-- Modelled from the spec: the collector records an in-memory extension
module shared library under the module name, after the policy admits
in-memory placement. -/
def PythonResourceCollector.add_in_memory_python_extension_module_shared_library
    (c : PythonResourceCollector) (module : Str) (is_package : Bool)
    (data : List Nat) : Except Str PythonResourceCollector := do
  let _ ← c.check_policy ResourceLocation.InMemory
  let res := mapUpsert module
    { flavor := ResourceFlavor.Extension, name := module }
    (fun e =>
      { e with flavor := ResourceFlavor.Extension,
               is_package := is_package,
               in_memory_extension_module_shared_library := some (DataLocation.Memory data) })
    c.resources
  .ok { c with resources := res }

/-- Modelled from the spec: the collector records an in-memory shared
library under its file name. -/
def PythonResourceCollector.add_in_memory_shared_library
    (c : PythonResourceCollector) (name : Str) (loc : DataLocation) :
    Except Str PythonResourceCollector := do
  let _ ← c.check_policy ResourceLocation.InMemory
  let res := mapUpsert name
    { flavor := ResourceFlavor.SharedLibrary, name := name }
    (fun e =>
      { e with flavor := ResourceFlavor.SharedLibrary,
               in_memory_shared_library := some loc })
    c.resources
  .ok { c with resources := res }

/-- Modelled from the spec: registering a builtin extension module records an
extension-flavored entry under the module name (no policy check: builtin
extension modules live in the binary itself). -/
def PythonResourceCollector.add_builtin_python_extension_module
    (c : PythonResourceCollector) (module : PythonExtensionModule) :
    Except Str PythonResourceCollector :=
  let res := mapUpsert module.name
    { flavor := ResourceFlavor.Extension, name := module.name }
    (fun e =>
      { e with flavor := ResourceFlavor.Extension,
               is_package := module.is_package })
    c.resources
  .ok { c with resources := res }

/-- The file installs of one entry.  Modelled from the spec: every
relative-path-placed payload becomes one file-install entry; the executable
flag is true only for extension-module shared libraries and shared
libraries. -/
def installsFor (e : PrePackagedResource) : List (Str × DataLocation × Bool) :=
  (match e.relative_path_module_source with
   | some (pfx, loc) => [(pathJoin pfx (sourceRelPath e.name e.is_package), loc, false)]
   | none => []) ++
  (match e.relative_path_extension_module_shared_library with
   | some (_, path, loc) => [(path, loc, true)]
   | none => []) ++
  (match e.relative_path_shared_library with
   | some (pfx, loc) => [(pathJoin pfx e.name, loc, true)]
   | none => [])

/-- Modelled from the spec: the collector derives the file installs of every
entry, in table iteration order. -/
def PythonResourceCollector.derive_file_installs (c : PythonResourceCollector) :
    List (Str × DataLocation × Bool) :=
  (c.resources.map (fun kv => installsFor kv.2)).flatten

end PyOx

namespace PyOx

/- ============== the pre-packaged resource collection (source) ============ -/

/-- Represents Python resources to embed in a binary (struct
PrePackagedResources of the source): the collector plus the extension module
build-state table. -/
structure PrePackagedResources where
  collector : PythonResourceCollector
  extension_module_states : Map ExtensionModuleBuildState
  deriving DecidableEq

/-- PrePackagedResources new. -/
def PrePackagedResources.new (policy : PythonResourcesPolicy) (cache_tag : Str) :
    PrePackagedResources :=
  { collector := { policy := policy, cache_tag := cache_tag, resources := [] },
    extension_module_states := [] }

/-- Add module source to be loaded from a file on the filesystem relative to
the resources (delegates to the collector). -/
def PrePackagedResources.add_relative_path_module_source
    (st : PrePackagedResources) (module : PythonModuleSource) (pfx : Str) :
    Except Str PrePackagedResources := do
  let c ← st.collector.add_relative_path_python_module_source module pfx
  .ok { st with collector := c }

/-- Add a bytecode module to be loaded from the filesystem relative to some
entity (delegates to the collector). -/
def PrePackagedResources.add_relative_path_module_bytecode
    (st : PrePackagedResources) (module : PythonModuleBytecodeFromSource)
    (pfx : Str) : Except Str PrePackagedResources := do
  let c ← st.collector.add_relative_path_python_module_bytecode_from_source module pfx
  .ok { st with collector := c }

/-- The build state recorded for a distribution extension module: when the
module is builtin by default no object files are linked, otherwise its object
paths; the four link sets are filtered out of its link dependencies. -/
def distBuildState (module : DistributionExtensionModule) :
    ExtensionModuleBuildState :=
  { init_fn := module.init_fn,
    link_object_files :=
      if module.builtin_default then []
      else module.object_paths.map (fun p => DataLocation.Path p),
    link_frameworks := setFromList (module.links.filterMap (fun link =>
      if link.framework then some link.name else none)),
    link_system_libraries := setFromList (module.links.filterMap (fun link =>
      if link.system then some link.name else none)),
    link_static_libraries := setFromList (module.links.filterMap (fun link =>
      if link.static_path.isSome then some link.name else none)),
    link_dynamic_libraries := setFromList (module.links.filterMap (fun link =>
      if link.dynamic_path.isSome then some link.name else none)),
    link_external_libraries := [] }

/-- Add an extension module from a Python distribution to be linked into the
binary.  No policy check because distribution extension modules are special
(comment of the source). -/
def PrePackagedResources.add_builtin_distribution_extension_module
    (st : PrePackagedResources) (module : DistributionExtensionModule) :
    Except Str PrePackagedResources :=
  let states := mapInsert module.module (distBuildState module) st.extension_module_states
  .ok { st with extension_module_states := states }

/-- The link loop of the in-memory distribution add: for every link
dependency with a dynamic library, add an in-memory shared-library resource
under the library file name and push that name onto the extension module
entry's dependency list. -/
def inMemLinkLoop (moduleName : Str) :
    List LibraryDependency → PythonResourceCollector →
    Except Str PythonResourceCollector
  | [], c => .ok c
  | link :: rest, c =>
    match link.dynamic_path with
    | none => inMemLinkLoop moduleName rest c
    | some shared_library => do
      let nm := fileName shared_library
      let c ← c.add_in_memory_shared_library nm (DataLocation.Path shared_library)
      let res := mapAdjust moduleName
        (fun e =>
          let deps := some ((e.shared_library_dependency_names.getD []) ++ [nm])
          { e with shared_library_dependency_names := deps })
        c.resources
      inMemLinkLoop moduleName rest { c with resources := res }

/-- Add a distribution extension module to be loaded from in-memory import.
Fails, before touching any state, when the module lacks shared library
data. -/
def PrePackagedResources.add_in_memory_distribution_extension_module
    (st : PrePackagedResources) (fs : FileSys)
    (module : DistributionExtensionModule) : Except Str PrePackagedResources :=
  match module.shared_library with
  | none =>
    .error (chars "cannot add extension module " ++ module.module ++
      chars " for in-memory loading because it lacks shared library data")
  | some sl => do
    let data := fs sl
    let c ← st.collector.add_in_memory_python_extension_module_shared_library
      module.module false data
    let c ← inMemLinkLoop module.module module.links c
    .ok { st with collector := c }

/-- The link loop of the relative-path distribution add: dynamic library
dependencies are installed next to the extension module.  The entry is
stored under the link name while its name field holds the library file
name, exactly as the source writes it. -/
def relLinkLoop (pfx : Str) :
    List LibraryDependency → Map PrePackagedResource → Map PrePackagedResource
  | [], res => res
  | link :: rest, res =>
    match link.dynamic_path with
    | none => relLinkLoop pfx rest res
    | some shared_library =>
      let file_name := fileName shared_library
      let res := mapUpsert link.name
        { flavor := ResourceFlavor.SharedLibrary, name := file_name }
        (fun e =>
          let pay := some (pfx, DataLocation.Path shared_library)
          { e with relative_path_shared_library := pay })
        res
      relLinkLoop pfx rest res

/-- Add an extension module from a Python distribution to be loaded from the
filesystem as a dynamic library.  Checks the policy, then fails when the
module lacks a shared library; otherwise records the extension entry and the
dynamic-library dependency entries. -/
def PrePackagedResources.add_relative_path_distribution_extension_module
    (st : PrePackagedResources) (pfx : Str)
    (module : DistributionExtensionModule) : Except Str PrePackagedResources := do
  let _ ← st.collector.check_policy ResourceLocation.RelativePath
  match module.shared_library with
  | none =>
    .error (chars "cannot add extension module " ++ module.module ++
      chars " as path relative because it lacks a shared library")
  | some extension_path =>
    let install_path := pathJoin pfx (fileName extension_path)
    let res := mapUpsert module.module
      { flavor := ResourceFlavor.Extension, name := module.module }
      (fun e =>
        let pay := some (pfx, install_path, DataLocation.Path extension_path)
        { e with is_package := false,
                 relative_path_extension_module_shared_library := pay })
      st.collector.resources
    let res := relLinkLoop pfx module.links res
    .ok { st with collector := { st.collector with resources := res } }

/-- Add an extension module to be linked into the binary (caller-supplied
object file data).  Fails when the module carries no object file data. -/
def PrePackagedResources.add_builtin_extension_module
    (st : PrePackagedResources) (module : PythonExtensionModule) :
    Except Str PrePackagedResources :=
  if module.object_file_data = [] then
    .error (chars "cannot add extension module " ++ module.name ++
      chars " as builtin because it lacks object file data")
  else do
    let c ← st.collector.add_builtin_python_extension_module module
    let states := mapInsert module.name
      { init_fn := module.init_fn,
        link_object_files :=
          module.object_file_data.map (fun d => DataLocation.Memory d),
        link_frameworks := [],
        link_system_libraries := [],
        link_static_libraries := [],
        link_dynamic_libraries := [],
        link_external_libraries := setFromList module.libraries }
      st.extension_module_states
    .ok { st with collector := c, extension_module_states := states }

/-- Modelled from the spec: the filtering helper of this repository (module
filtering, not under src) retains exactly the entries whose key is in the
allowed name set, in order, and never fails. -/
def filter_btreemap {V : Type} (m : Map V) (names : List Str) : Map V :=
  m.filter (fun kv => decide (kv.1 ∈ names))

/-- Filter the entities in this instance against a set of resource names (the
set itself is computed by the external name-usage scanner). -/
def PrePackagedResources.filter_from_files (st : PrePackagedResources)
    (resource_names : List Str) : PrePackagedResources :=
  { st with
    collector :=
      { st.collector with
        resources := filter_btreemap st.collector.resources resource_names },
    extension_module_states :=
      filter_btreemap st.extension_module_states resource_names }

/-- Add the resolved file installs to a manifest, in order. -/
def addInstalls (fs : FileSys) :
    List (Str × DataLocation × Bool) → FileManifest → Except Str FileManifest
  | [], m => .ok m
  | (p, loc, ex) :: rest, m => do
    let m' ← FileManifest.add_file m p { data := loc.resolve fs, executable := ex }
    addInstalls fs rest m'

/-- derive-extra-files of the source: resolve every file install of the
collector into a fresh manifest. -/
def PrePackagedResources.derive_extra_files (st : PrePackagedResources)
    (fs : FileSys) : Except Str FileManifest :=
  addInstalls fs st.collector.derive_file_installs []

/- ===================== packaging ========================== -/

/-- The or-insert-default-then-mutate loop over a list of keys, shared by the
two package-inference passes. -/
def foldUpsert {V : Type} (d : Str → V) (f : V → V) (ks : List Str)
    (m : Map V) : Map V :=
  ks.foldl (fun acc k => mapUpsert k (d k) f acc) m

/-- Modelled from the spec (package inference, pass one and two): every
ancestor package implied by the table's dotted names gets an entry, created
with flavor Package and empty payload when absent, and its package flag set
(external helper populate-parent-packages). -/
def populate_parent_packages (m : Map PrePackagedResource) :
    Map PrePackagedResource :=
  foldUpsert (fun p => { flavor := ResourceFlavor.Package, name := p })
    (fun e => { e with is_package := true })
    (packages_from_module_names (mapKeys m)) m

/-- The compiled packed-resource entry of one table entry, mirroring the
packaging loop of the source: in-memory bytecode sources are compiled at
their level in Bytecode mode; relative-path bytecode sources get their
destination path derived at their level.  The third relative branch writes
the opt1 field, exactly as the source does at line 586. -/
def compiledEntry (cc : Compiler) (fs : FileSys) (name : Str)
    (module : PrePackagedResource) : Resource :=
  let entry := resourceFrom module
  let entry :=
    match module.in_memory_bytecode_source with
    | some loc =>
      let data := cc (loc.resolve fs) name BytecodeOptimizationLevel.Zero CompileMode.Bytecode
      { entry with in_memory_bytecode := some data }
    | none => entry
  let entry :=
    match module.in_memory_bytecode_opt1_source with
    | some loc =>
      let data := cc (loc.resolve fs) name BytecodeOptimizationLevel.One CompileMode.Bytecode
      { entry with in_memory_bytecode_opt1 := some data }
    | none => entry
  let entry :=
    match module.in_memory_bytecode_opt2_source with
    | some loc =>
      let data := cc (loc.resolve fs) name BytecodeOptimizationLevel.Two CompileMode.Bytecode
      { entry with in_memory_bytecode_opt2 := some data }
    | none => entry
  let entry :=
    match module.relative_path_bytecode_source with
    | some (pfx, cache_tag, _loc) =>
      let path := PythonModuleBytecodeFromSource.resolve_path
        { name := name, source := DataLocation.Memory [],
          optimize_level := BytecodeOptimizationLevel.Zero,
          is_package := entry.is_package, cache_tag := cache_tag } pfx
      { entry with relative_path_module_bytecode := some path }
    | none => entry
  let entry :=
    match module.relative_path_bytecode_opt1_source with
    | some (pfx, cache_tag, _loc) =>
      let path := PythonModuleBytecodeFromSource.resolve_path
        { name := name, source := DataLocation.Memory [],
          optimize_level := BytecodeOptimizationLevel.One,
          is_package := entry.is_package, cache_tag := cache_tag } pfx
      { entry with relative_path_module_bytecode_opt1 := some path }
    | none => entry
  let entry :=
    match module.relative_path_bytecode_opt2_source with
    | some (pfx, cache_tag, _loc) =>
      let path := PythonModuleBytecodeFromSource.resolve_path
        { name := name, source := DataLocation.Memory [],
          optimize_level := BytecodeOptimizationLevel.Two,
          is_package := entry.is_package, cache_tag := cache_tag } pfx
      { entry with relative_path_module_bytecode_opt1 := some path }
    | none => entry
  entry

/-- The auxiliary files the packaging loop adds for one table entry: one
non-executable compiled bytecode file per relative-path bytecode source,
compiled in unchecked-hash mode at the matching level. -/
def entryFiles (cc : Compiler) (fs : FileSys) (name : Str)
    (module : PrePackagedResource) : List (Str × FileContent) :=
  (match module.relative_path_bytecode_source with
   | some (pfx, cache_tag, loc) =>
     [(PythonModuleBytecodeFromSource.resolve_path
         { name := name, source := DataLocation.Memory [],
           optimize_level := BytecodeOptimizationLevel.Zero,
           is_package := module.is_package, cache_tag := cache_tag } pfx,
       { data := cc (loc.resolve fs) name BytecodeOptimizationLevel.Zero
                   CompileMode.PycUncheckedHash,
         executable := false })]
   | none => []) ++
  (match module.relative_path_bytecode_opt1_source with
   | some (pfx, cache_tag, loc) =>
     [(PythonModuleBytecodeFromSource.resolve_path
         { name := name, source := DataLocation.Memory [],
           optimize_level := BytecodeOptimizationLevel.One,
           is_package := module.is_package, cache_tag := cache_tag } pfx,
       { data := cc (loc.resolve fs) name BytecodeOptimizationLevel.One
                   CompileMode.PycUncheckedHash,
         executable := false })]
   | none => []) ++
  (match module.relative_path_bytecode_opt2_source with
   | some (pfx, cache_tag, loc) =>
     [(PythonModuleBytecodeFromSource.resolve_path
         { name := name, source := DataLocation.Memory [],
           optimize_level := BytecodeOptimizationLevel.Two,
           is_package := module.is_package, cache_tag := cache_tag } pfx,
       { data := cc (loc.resolve fs) name BytecodeOptimizationLevel.Two
                   CompileMode.PycUncheckedHash,
         executable := false })]
   | none => []) ++ []

/-- Add the auxiliary files of a list to a manifest, in order. -/
def addEntryFiles :
    List (Str × FileContent) → FileManifest → Except Str FileManifest
  | [], m => .ok m
  | (p, c) :: rest, m => do
    let m' ← FileManifest.add_file m p c
    addEntryFiles rest m'

/-- One iteration of the packaging loop: register the auxiliary files of the
entry, then insert the compiled entry under its name. -/
def processResource (cc : Compiler) (fs : FileSys) (name : Str)
    (module : PrePackagedResource) (acc : Map Resource × FileManifest) :
    Except Str (Map Resource × FileManifest) :=
  match addEntryFiles (entryFiles cc fs name module) acc.2 with
  | .error e => .error e
  | .ok files => .ok (mapInsert name (compiledEntry cc fs name module) acc.1, files)

/-- The packaging loop over the whole input table, in iteration order. -/
def processAll (cc : Compiler) (fs : FileSys) :
    Map PrePackagedResource → (Map Resource × FileManifest) →
    Except Str (Map Resource × FileManifest)
  | [], acc => .ok acc
  | (name, module) :: rest, acc =>
    match processResource cc fs name module acc with
    | .error e => .error e
    | .ok acc' => processAll cc fs rest acc'

/-- Holds state necessary to link libpython (struct LibpythonLinkingInfo of
the source). -/
structure LibpythonLinkingInfo where
  object_files : List DataLocation
  link_libraries : List Str
  link_frameworks : List Str
  link_system_libraries : List Str
  link_libraries_external : List Str
  deriving DecidableEq

/-- Represents Python resources to embed in a binary after packaging (struct
EmbeddedPythonResources of the source). -/
structure EmbeddedPythonResources where
  resources : Map Resource
  extra_files : FileManifest
  extension_modules : Map ExtensionModuleBuildState
  deriving DecidableEq

/-- The ancestor-package pass at the end of package: every derived package
name gets an entry (created empty with just its name when absent) and its
package flag is set when it was false, with a non-fatal diagnostic. -/
def inferPackageEntries (derived : List Str) (res : Map Resource) :
    Map Resource :=
  foldUpsert (fun p => { name := p })
    (fun e => if e.is_package then e else { e with is_package := true })
    derived res

/-- The frozen result assembled from the loop output: the ancestor-package
pass over the derived package names (those of the compiled table extended
with those of the extension module table), the collected auxiliary files and
the untouched extension module states. -/
def packageResult (st : PrePackagedResources)
    (pair : Map Resource × FileManifest) : EmbeddedPythonResources :=
  { resources :=
      inferPackageEntries
        (setInsertAll (packages_from_module_names (mapKeys pair.1))
          (packages_from_module_names (mapKeys st.extension_module_states)))
        pair.1,
    extra_files := pair.2,
    extension_modules := st.extension_module_states }

/-- The packaging pipeline once the file-install manifest has been derived:
the compile loop over the parent-populated table, then the result assembly. -/
def packageAfterExtra (st : PrePackagedResources) (cc : Compiler)
    (fs : FileSys) (extra0 : FileManifest) : Except Str EmbeddedPythonResources :=
  match processAll cc fs (populate_parent_packages st.collector.resources)
      ([], extra0) with
  | .error e => .error e
  | .ok pair => .ok (packageResult st pair)

/-- package of the source: derive the parent packages of the collector table,
derive the file installs, run the packaging loop (compiling bytecode and
registering auxiliary files), extend the derived package names with those of
the extension module table, run the ancestor-package pass, and freeze the
result.  The module-identity-marker scan of the source only logs warnings and
is elided, as are all other diagnostics. -/
def PrePackagedResources.package (st : PrePackagedResources) (cc : Compiler)
    (fs : FileSys) : Except Str EmbeddedPythonResources :=
  match st.derive_extra_files fs with
  | .error e => .error e
  | .ok extra0 => packageAfterExtra st cc fs extra0

/- ===================== outputs of the packaging result ==================== -/

/-- The newline-delimited module name stream write-blobs emits (the packed
resource stream itself is delegated to the external versioned encoder and
not modelled). -/
def EmbeddedPythonResources.write_blobs_module_names
    (r : EmbeddedPythonResources) : Str :=
  (mapKeys r.resources).foldl (fun acc n => acc ++ n ++ ['\n']) []

/-- Obtain a list of built-in extensions: the (name, initialization function)
pairs of every extension module state that declares one. -/
def EmbeddedPythonResources.builtin_extensions (r : EmbeddedPythonResources) :
    List (Str × Str) :=
  r.extension_modules.filterMap (fun kv =>
    match kv.2.init_fn with
    | some init_fn => some (kv.1, init_fn)
    | none => none)

/-- The linking-resolution loop of the source, one extension module state at
a time: object files are appended in table order; frameworks, system
libraries and external libraries union into their sets; static and dynamic
libraries union into the one link-libraries set. -/
def resolveAux :
    Map ExtensionModuleBuildState → LibpythonLinkingInfo → LibpythonLinkingInfo
  | [], acc => acc
  | (_, state) :: rest, acc =>
    resolveAux rest
      { object_files := acc.object_files ++ state.link_object_files,
        link_frameworks := setInsertAll acc.link_frameworks state.link_frameworks,
        link_system_libraries :=
          setInsertAll acc.link_system_libraries state.link_system_libraries,
        link_libraries :=
          setInsertAll (setInsertAll acc.link_libraries state.link_static_libraries)
            state.link_dynamic_libraries,
        link_libraries_external :=
          setInsertAll acc.link_libraries_external state.link_external_libraries }

/-- Resolve state needed to link a libpython.  The per-dependency log lines
of the source are diagnostics and elided. -/
def EmbeddedPythonResources.resolve_libpython_linking_info
    (r : EmbeddedPythonResources) : LibpythonLinkingInfo :=
  resolveAux r.extension_modules
    { object_files := [], link_libraries := [], link_frameworks := [],
      link_system_libraries := [], link_libraries_external := [] }

end PyOx

namespace PyOx

/- ============== lemmas about the packaging building blocks ============== -/

/-- Insert-then-lookup at the same key always finds the inserted value, with
no ordering assumption: insert walks past strictly smaller keys only. -/
theorem mapLookup_insert_self_any {V : Type} (k : Str) (v : V) (m : Map V) :
    mapLookup k (mapInsert k v m) = some v := by
  induction m with
  | nil => simp [mapInsert, mapLookup]
  | cons kv rest ih =>
    obtain ⟨k', v'⟩ := kv
    simp only [mapInsert]
    by_cases h1 : k < k'
    · rw [if_pos h1]
      simp [mapLookup]
    · by_cases h2 : k = k'
      · rw [if_neg h1, if_pos h2]
        simp [mapLookup]
      · rw [if_neg h1, if_neg h2]
        simp only [mapLookup, if_neg h2]
        exact ih

theorem foldUpsert_ordered {V : Type} (d : Str → V) (f : V → V)
    (ks : List Str) {m : Map V} (h : MapOrdered m) :
    MapOrdered (foldUpsert d f ks m) := by
  induction ks generalizing m with
  | nil => exact h
  | cons k0 rest ih =>
    show MapOrdered (foldUpsert d f rest (mapUpsert k0 (d k0) f m))
    exact ih (mapUpsert_ordered k0 (d k0) f h)

theorem mapLookup_foldUpsert_not_mem {V : Type} (d : Str → V) (f : V → V)
    {k : Str} {ks : List Str} (m : Map V) (hk : k ∉ ks) :
    mapLookup k (foldUpsert d f ks m) = mapLookup k m := by
  induction ks generalizing m with
  | nil => rfl
  | cons k0 rest ih =>
    have hne : k ≠ k0 := fun he => hk (by rw [he]; exact List.mem_cons_self k0 rest)
    have hk' : k ∉ rest := fun h => hk (List.mem_cons_of_mem _ h)
    show mapLookup k (foldUpsert d f rest (mapUpsert k0 (d k0) f m)) = _
    rw [ih _ hk', mapLookup_upsert_ne (d k0) f m hne]

theorem mapLookup_foldUpsert_mem {V : Type} (d : Str → V) (f : V → V)
    {k : Str} {ks : List Str} {m : Map V} (hnd : ks.Nodup) (hk : k ∈ ks)
    (hord : MapOrdered m) :
    mapLookup k (foldUpsert d f ks m) = some (f ((mapLookup k m).getD (d k))) := by
  induction ks generalizing m with
  | nil => cases hk
  | cons k0 rest ih =>
    rcases List.mem_cons.mp hk with he | hmem
    · subst he
      have hnotin : k ∉ rest := (List.nodup_cons.mp hnd).1
      show mapLookup k (foldUpsert d f rest (mapUpsert k (d k) f m)) = _
      rw [mapLookup_foldUpsert_not_mem d f _ hnotin,
          mapLookup_upsert_self k (d k) f hord]
    · have hne : k ≠ k0 := by
        intro he
        subst he
        exact (List.nodup_cons.mp hnd).1 hmem
      show mapLookup k (foldUpsert d f rest (mapUpsert k0 (d k0) f m)) = _
      rw [ih (List.nodup_cons.mp hnd).2 hmem (mapUpsert_ordered k0 (d k0) f hord),
          mapLookup_upsert_ne (d k0) f m hne]

theorem mem_keys_foldUpsert {V : Type} (d : Str → V) (f : V → V)
    (ks : List Str) (m : Map V) (x : Str) :
    x ∈ mapKeys (foldUpsert d f ks m) ↔ x ∈ ks ∨ x ∈ mapKeys m := by
  induction ks generalizing m with
  | nil => simp [foldUpsert]
  | cons k0 rest ih =>
    show x ∈ mapKeys (foldUpsert d f rest (mapUpsert k0 (d k0) f m)) ↔ _
    rw [ih, mem_mapKeys_upsert]
    simp only [List.mem_cons]
    tauto

theorem processResource_ok {cc : Compiler} {fs : FileSys} {name : Str}
    {module : PrePackagedResource} {acc pair}
    (h : processResource cc fs name module acc = Except.ok pair) :
    pair.1 = mapInsert name (compiledEntry cc fs name module) acc.1 := by
  unfold processResource at h
  cases hf : addEntryFiles (entryFiles cc fs name module) acc.2 with
  | error e =>
    rw [hf] at h
    simp at h
  | ok files =>
    rw [hf] at h
    simp only [Except.ok.injEq] at h
    rw [← h]

theorem processAll_ordered {cc : Compiler} {fs : FileSys}
    {l : Map PrePackagedResource} :
    ∀ {acc pair}, MapOrdered acc.1 → processAll cc fs l acc = Except.ok pair →
      MapOrdered pair.1 := by
  induction l with
  | nil =>
    intro acc pair hord h
    simp only [processAll, Except.ok.injEq] at h
    rw [← h]
    exact hord
  | cons kv rest ih =>
    obtain ⟨name, module⟩ := kv
    intro acc pair hord h
    simp only [processAll] at h
    cases hp : processResource cc fs name module acc with
    | error e =>
      rw [hp] at h
      simp at h
    | ok acc' =>
      rw [hp] at h
      have h1 := processResource_ok hp
      exact ih (by rw [h1]; exact mapInsert_ordered _ _ hord) h

theorem processAll_keys {cc : Compiler} {fs : FileSys}
    {l : Map PrePackagedResource} :
    ∀ {acc pair}, processAll cc fs l acc = Except.ok pair →
      ∀ x, x ∈ mapKeys pair.1 ↔ x ∈ mapKeys l ∨ x ∈ mapKeys acc.1 := by
  induction l with
  | nil =>
    intro acc pair h x
    simp only [processAll, Except.ok.injEq] at h
    rw [← h]
    constructor
    · exact fun hx => Or.inr hx
    · rintro (hx | hx)
      · simp only [mapKeys, List.map_nil] at hx
        cases hx
      · exact hx
  | cons kv rest ih =>
    obtain ⟨name, module⟩ := kv
    intro acc pair h x
    simp only [processAll] at h
    cases hp : processResource cc fs name module acc with
    | error e =>
      rw [hp] at h
      simp at h
    | ok acc' =>
      rw [hp] at h
      have h1 := processResource_ok hp
      rw [ih h x, h1, mem_mapKeys_insert]
      simp only [mapKeys, List.map_cons, List.mem_cons]
      tauto

theorem processAll_lookup_not_mem {cc : Compiler} {fs : FileSys}
    {l : Map PrePackagedResource} :
    ∀ {acc pair}, processAll cc fs l acc = Except.ok pair →
      ∀ {k}, k ∉ mapKeys l → mapLookup k pair.1 = mapLookup k acc.1 := by
  induction l with
  | nil =>
    intro acc pair h k _
    simp only [processAll, Except.ok.injEq] at h
    rw [← h]
  | cons kv rest ih =>
    obtain ⟨name, module⟩ := kv
    intro acc pair h k hk
    simp only [mapKeys, List.map_cons, List.mem_cons, not_or] at hk
    obtain ⟨hne, hk'⟩ := hk
    simp only [processAll] at h
    cases hp : processResource cc fs name module acc with
    | error e =>
      rw [hp] at h
      simp at h
    | ok acc' =>
      rw [hp] at h
      have h1 := processResource_ok hp
      rw [ih h hk', h1, mapLookup_insert_ne _ _ hne]

theorem processAll_lookup_mem {cc : Compiler} {fs : FileSys}
    {l : Map PrePackagedResource} :
    ∀ {acc pair}, processAll cc fs l acc = Except.ok pair →
      (mapKeys l).Nodup →
      ∀ {k v}, (k, v) ∈ l → mapLookup k pair.1 = some (compiledEntry cc fs k v) := by
  induction l with
  | nil =>
    intro acc pair _ _ k v hm
    cases hm
  | cons kv rest ih =>
    obtain ⟨name, module⟩ := kv
    intro acc pair h hnd k v hm
    simp only [mapKeys, List.map_cons, List.nodup_cons] at hnd
    simp only [processAll] at h
    cases hp : processResource cc fs name module acc with
    | error e =>
      rw [hp] at h
      simp at h
    | ok acc' =>
      rw [hp] at h
      have h1 := processResource_ok hp
      rcases List.mem_cons.mp hm with he | hmem
      · injection he with hk hv
        subst hk
        subst hv
        rw [processAll_lookup_not_mem h hnd.1, h1, mapLookup_insert_self_any]
      · exact ih h hnd.2 hmem

theorem mem_ancestors {p n : Str} :
    p ∈ ancestors n ↔ ∃ i, i < n.length ∧ n.getD i ' ' = '.' ∧ p = n.take i := by
  unfold ancestors
  rw [List.mem_filterMap]
  constructor
  · rintro ⟨i, hi, hf⟩
    rw [List.mem_range] at hi
    by_cases hd : n.getD i ' ' = '.'
    · rw [if_pos hd] at hf
      injection hf with hf
      exact ⟨i, hi, hd, hf.symm⟩
    · rw [if_neg hd] at hf
      cases hf
  · rintro ⟨i, hi, hd, hp⟩
    exact ⟨i, List.mem_range.mpr hi, by rw [if_pos hd, hp]⟩

theorem ancestors_trans {q p n : Str} (hp : p ∈ ancestors n)
    (hq : q ∈ ancestors p) : q ∈ ancestors n := by
  rcases mem_ancestors.mp hp with ⟨i, hi, hdi, hpi⟩
  rcases mem_ancestors.mp hq with ⟨j, hj, hdj, hqj⟩
  subst hpi
  rw [List.length_take] at hj
  have hji : j < i := lt_of_lt_of_le hj (min_le_left i n.length)
  apply mem_ancestors.mpr
  refine ⟨j, lt_trans hji hi, ?_, ?_⟩
  · rw [List.getD_eq_getElem?_getD] at hdj
    rw [List.getElem?_take, if_pos hji] at hdj
    rw [List.getD_eq_getElem?_getD]
    exact hdj
  · rw [hqj, List.take_take]
    congr 1
    omega

theorem mem_packages_from_aux (names : List Str) (acc : List Str) (x : Str) :
    x ∈ names.foldl (fun a n => setInsertAll a (ancestors n)) acc ↔
      x ∈ acc ∨ ∃ n ∈ names, x ∈ ancestors n := by
  induction names generalizing acc with
  | nil => simp
  | cons n0 rest ih =>
    simp only [List.foldl_cons]
    rw [ih, mem_setInsertAll]
    constructor
    · rintro ((h | h) | ⟨n, hn, hx⟩)
      · exact Or.inl h
      · exact Or.inr ⟨n0, List.mem_cons_self _ _, h⟩
      · exact Or.inr ⟨n, List.mem_cons_of_mem _ hn, hx⟩
    · rintro (h | ⟨n, hn, hx⟩)
      · exact Or.inl (Or.inl h)
      · rcases List.mem_cons.mp hn with he | hn'
        · subst he
          exact Or.inl (Or.inr hx)
        · exact Or.inr ⟨n, hn', hx⟩

theorem mem_packages_from (names : List Str) (x : Str) :
    x ∈ packages_from_module_names names ↔ ∃ n ∈ names, x ∈ ancestors n := by
  unfold packages_from_module_names
  rw [mem_packages_from_aux]
  simp

theorem packages_from_aux_ordered (names : List Str) {acc : List Str}
    (h : SetOrdered acc) :
    SetOrdered (names.foldl (fun a n => setInsertAll a (ancestors n)) acc) := by
  induction names generalizing acc with
  | nil => exact h
  | cons n0 rest ih =>
    simp only [List.foldl_cons]
    exact ih (setInsertAll_ordered _ h)

theorem packages_from_ordered (names : List Str) :
    SetOrdered (packages_from_module_names names) :=
  packages_from_aux_ordered names (by simp [SetOrdered])

theorem resolveAux_object_files (l : Map ExtensionModuleBuildState) :
    ∀ acc : LibpythonLinkingInfo,
      (resolveAux l acc).object_files =
        acc.object_files ++ (l.map (fun kv => kv.2.link_object_files)).flatten := by
  induction l with
  | nil =>
    intro acc
    simp [resolveAux]
  | cons kv rest ih =>
    obtain ⟨nm, state⟩ := kv
    intro acc
    simp only [resolveAux, List.map_cons, List.flatten_cons]
    rw [ih]
    simp [List.append_assoc]

theorem resolveAux_mem_system (l : Map ExtensionModuleBuildState) :
    ∀ (acc : LibpythonLinkingInfo) (x : Str),
      x ∈ (resolveAux l acc).link_system_libraries ↔
        x ∈ acc.link_system_libraries ∨
          ∃ kv ∈ l, x ∈ kv.2.link_system_libraries := by
  induction l with
  | nil =>
    intro acc x
    constructor
    · exact fun h => Or.inl h
    · rintro (h | ⟨kv, hkv, _⟩)
      · exact h
      · cases hkv
  | cons kv rest ih =>
    obtain ⟨nm, state⟩ := kv
    intro acc x
    simp only [resolveAux]
    rw [ih, mem_setInsertAll]
    constructor
    · rintro ((h | h) | ⟨kv', hkv, hx⟩)
      · exact Or.inl h
      · exact Or.inr ⟨(nm, state), List.mem_cons_self _ _, h⟩
      · exact Or.inr ⟨kv', List.mem_cons_of_mem _ hkv, hx⟩
    · rintro (h | ⟨kv', hkv, hx⟩)
      · exact Or.inl (Or.inl h)
      · rcases List.mem_cons.mp hkv with he | hkv'
        · subst he
          exact Or.inl (Or.inr hx)
        · exact Or.inr ⟨kv', hkv', hx⟩

theorem resolveAux_mem_libraries (l : Map ExtensionModuleBuildState) :
    ∀ (acc : LibpythonLinkingInfo) (x : Str),
      x ∈ (resolveAux l acc).link_libraries ↔
        x ∈ acc.link_libraries ∨
          ∃ kv ∈ l, x ∈ kv.2.link_static_libraries ∨
            x ∈ kv.2.link_dynamic_libraries := by
  induction l with
  | nil =>
    intro acc x
    constructor
    · exact fun h => Or.inl h
    · rintro (h | ⟨kv, hkv, _⟩)
      · exact h
      · cases hkv
  | cons kv rest ih =>
    obtain ⟨nm, state⟩ := kv
    intro acc x
    simp only [resolveAux]
    rw [ih, mem_setInsertAll, mem_setInsertAll]
    constructor
    · rintro (((h | h) | h) | ⟨kv', hkv, hx⟩)
      · exact Or.inl h
      · exact Or.inr ⟨(nm, state), List.mem_cons_self _ _, Or.inl h⟩
      · exact Or.inr ⟨(nm, state), List.mem_cons_self _ _, Or.inr h⟩
      · exact Or.inr ⟨kv', List.mem_cons_of_mem _ hkv, hx⟩
    · rintro (h | ⟨kv', hkv, hx⟩)
      · exact Or.inl (Or.inl (Or.inl h))
      · rcases List.mem_cons.mp hkv with he | hkv'
        · subst he
          rcases hx with hx | hx
          · exact Or.inl (Or.inl (Or.inr hx))
          · exact Or.inl (Or.inr hx)
        · exact Or.inr ⟨kv', hkv', hx⟩

theorem resolveAux_ordered (l : Map ExtensionModuleBuildState) :
    ∀ acc : LibpythonLinkingInfo,
      SetOrdered acc.link_frameworks → SetOrdered acc.link_system_libraries →
      SetOrdered acc.link_libraries → SetOrdered acc.link_libraries_external →
      SetOrdered (resolveAux l acc).link_frameworks ∧
      SetOrdered (resolveAux l acc).link_system_libraries ∧
      SetOrdered (resolveAux l acc).link_libraries ∧
      SetOrdered (resolveAux l acc).link_libraries_external := by
  induction l with
  | nil =>
    intro acc h1 h2 h3 h4
    exact ⟨h1, h2, h3, h4⟩
  | cons kv rest ih =>
    obtain ⟨nm, state⟩ := kv
    intro acc h1 h2 h3 h4
    exact ih _ (setInsertAll_ordered _ h1) (setInsertAll_ordered _ h2)
      (setInsertAll_ordered _ (setInsertAll_ordered _ h3))
      (setInsertAll_ordered _ h4)

theorem foldl_append_newline (l : List Str) :
    ∀ acc : Str, l.foldl (fun a n => a ++ n ++ ['\n']) acc =
      acc ++ (l.map (fun n => n ++ ['\n'])).flatten := by
  induction l with
  | nil =>
    intro acc
    simp
  | cons n0 rest ih =>
    intro acc
    simp only [List.foldl_cons, List.map_cons, List.flatten_cons]
    rw [ih]
    simp [List.append_assoc]

/-- The flag-correcting function of the ancestor pass always leaves the
package flag set. -/
theorem inferFlag_is_package (e : Resource) :
    (if e.is_package then e else { e with is_package := true }).is_package = true := by
  by_cases h : e.is_package
  · rw [if_pos h]
    exact h
  · rw [if_neg h]

end PyOx

namespace PyOx

/- ===================== concrete fixtures ========================== -/

/-- A concrete deterministic compiler for the scenario theorems. -/
def ccTest : Compiler := fun d _ _ _ => 99 :: d

/-- A concrete filesystem environment for the scenario theorems. -/
def fsTest : FileSys := fun _ => []

/-- A fresh collection under the filesystem-relative-only policy. -/
def stRelTest : PrePackagedResources :=
  PrePackagedResources.new (PythonResourcesPolicy.FilesystemRelativeOnly [])
    (chars "cpython-37")

/-- A fresh collection under the in-memory-only policy. -/
def stMemTest : PrePackagedResources :=
  PrePackagedResources.new PythonResourcesPolicy.InMemoryOnly (chars "cpython-37")

/-- Module foo with a relative-path bytecode source at optimization level 2. -/
def bcFooOpt2 : PythonModuleBytecodeFromSource :=
  { name := chars "foo", source := DataLocation.Memory [7],
    optimize_level := BytecodeOptimizationLevel.Two, is_package := false,
    cache_tag := chars "cpython-37" }

/-- Module foo with a relative-path plain source. -/
def modFoo : PythonModuleSource :=
  { name := chars "foo", source := DataLocation.Memory [42], is_package := false,
    cache_tag := chars "cpython-37" }

/-- A distribution extension module whose link dependency z resolves to the
dynamic library file libz.so. -/
def demZ : DistributionExtensionModule :=
  { module := chars "foo", init_fn := none, builtin_default := false,
    object_paths := [], shared_library := some (chars "lib/foo.so"),
    links := [{ name := chars "z", framework := false, system := false,
                static_path := none, dynamic_path := some (chars "lib/libz.so") }] }

/-- A distribution extension module with no shared library payload. -/
def demNoShared : DistributionExtensionModule :=
  { module := chars "foo", init_fn := none, builtin_default := false,
    object_paths := [], shared_library := none, links := [] }

/-- The builtin extension module of the scenario: object payload 42, no
libraries, no initialization function. -/
def pemFooBar : PythonExtensionModule :=
  { name := chars "foo.bar", init_fn := none, extension_file_suffix := [],
    extension_data := none, object_file_data := [[42]], is_package := false,
    libraries := [] }

/-- The caller-side state after an add through a mutable reference: the new
state on success, the old state untouched when the add failed (the failing
adds of the source return before any mutation). -/
def runAdd (r : Except Str PrePackagedResources)
    (st : PrePackagedResources) : PrePackagedResources :=
  match r with
  | .ok st' => st'
  | .error _ => st

/- ===================== claim theorems (first batch) ===================== -/

/-- C1: for a relative-path bytecode source at optimization level 2 the
auxiliary file is produced as the claim states (the unchecked-hash compiler
output for level 2, non-executable, at the derived opt-2 path), but the
produced entry records that derived path in the level-1 relative-path
bytecode field and leaves the level-2 field unset: packaging module foo with
bytecode source bytes 7 at level 2 yields an entry whose opt-2 field is none
and whose opt-1 field holds the opt-2 path, so the field-recording half of
the claim fails on the code (the opt-2 branch of package writes the opt1
field). -/
theorem C1_opt2_path_lands_in_opt1_field :
    Except.map
      (fun r : EmbeddedPythonResources =>
        ((mapLookup (chars "foo") r.resources).map (fun e =>
          (e.relative_path_module_bytecode_opt2,
           e.relative_path_module_bytecode_opt1)),
         mapLookup (chars "__pycache__/foo.cpython-37.opt-2.pyc") r.extra_files))
      ((stRelTest.add_relative_path_module_bytecode bcFooOpt2 []).bind
        (fun st1 => st1.package ccTest fsTest)) =
    Except.ok
      (some (none, some (chars "__pycache__/foo.cpython-37.opt-2.pyc")),
       some { data := [99, 7], executable := false }) := by
  rfl

/-- C2: counterexample to the key-equals-name invariant: adding distribution
extension module foo whose link dependency is named z with dynamic library
lib/libz.so stores the dependency entry under map key z while the entry's own
name field is the file name libz.so, so the key differs from the name
field. -/
theorem C2_dependency_key_differs_from_name :
    Except.map
      (fun st1 : PrePackagedResources =>
        (mapLookup (chars "z") st1.collector.resources).map (fun e => e.name))
      (stRelTest.add_relative_path_distribution_extension_module [] demZ) =
      Except.ok (some (chars "libz.so")) ∧
    chars "libz.so" ≠ chars "z" := by
  exact ⟨rfl, by decide⟩

/-- C5: a distribution extension module without shared-library data is
rejected: the in-memory add fails (before any policy check) with an error
naming the module, and the relative-path add, under a policy admitting
relative placement, likewise fails with an error naming the module; in both
cases the caller's state is unchanged, so no entry is added. -/
theorem C5_missing_shared_library_rejected
    (st : PrePackagedResources) (fs : FileSys)
    (module : DistributionExtensionModule) (q : Str)
    (hn : module.shared_library = none)
    (hq : st.collector.policy = PythonResourcesPolicy.FilesystemRelativeOnly q)
    (p : Str) :
    (st.add_in_memory_distribution_extension_module fs module =
      Except.error (chars "cannot add extension module " ++ module.module ++
        chars " for in-memory loading because it lacks shared library data")) ∧
    (st.add_relative_path_distribution_extension_module p module =
      Except.error (chars "cannot add extension module " ++ module.module ++
        chars " as path relative because it lacks a shared library")) ∧
    runAdd (st.add_in_memory_distribution_extension_module fs module) st = st ∧
    runAdd (st.add_relative_path_distribution_extension_module p module) st = st := by
  have h1 : st.add_in_memory_distribution_extension_module fs module =
      Except.error (chars "cannot add extension module " ++ module.module ++
        chars " for in-memory loading because it lacks shared library data") := by
    unfold PrePackagedResources.add_in_memory_distribution_extension_module
    rw [hn]
  have h2 : st.add_relative_path_distribution_extension_module p module =
      Except.error (chars "cannot add extension module " ++ module.module ++
        chars " as path relative because it lacks a shared library") := by
    unfold PrePackagedResources.add_relative_path_distribution_extension_module
    unfold PythonResourceCollector.check_policy
    rw [hq, hn]
    rfl
  exact ⟨h1, h2, by rw [h1]; rfl, by rw [h2]; rfl⟩

/-- Witness for C5 at a concrete input: the fixture collection under the
relative-only policy rejects the shared-library-less module foo with the
error naming foo. -/
theorem C5_missing_shared_library_rejected_witness :
    stRelTest.add_in_memory_distribution_extension_module fsTest demNoShared =
      Except.error (chars "cannot add extension module " ++ chars "foo" ++
        chars " for in-memory loading because it lacks shared library data") :=
  (C5_missing_shared_library_rejected stRelTest fsTest demNoShared [] rfl rfl []).1

/-- C7: filtering restricts both the resource table and the extension module
build state table to the allowed names, silently dropping everything else;
it is a total function (it cannot fail) and the remaining entries keep their
relative order (the filtered tables are sublists of the originals). -/
theorem C7_filter_restricts_preserving_order
    (st : PrePackagedResources) (names : List Str) :
    ((st.filter_from_files names).collector.resources =
        filter_btreemap st.collector.resources names) ∧
    ((st.filter_from_files names).extension_module_states =
        filter_btreemap st.extension_module_states names) ∧
    List.Sublist ((st.filter_from_files names).collector.resources)
      st.collector.resources ∧
    List.Sublist ((st.filter_from_files names).extension_module_states)
      st.extension_module_states ∧
    (∀ kv : Str × PrePackagedResource,
      kv ∈ (st.filter_from_files names).collector.resources ↔
        kv ∈ st.collector.resources ∧ kv.1 ∈ names) ∧
    (∀ kv : Str × ExtensionModuleBuildState,
      kv ∈ (st.filter_from_files names).extension_module_states ↔
        kv ∈ st.extension_module_states ∧ kv.1 ∈ names) := by
  refine ⟨rfl, rfl, List.filter_sublist _, List.filter_sublist _, ?_, ?_⟩
  · intro kv
    show kv ∈ filter_btreemap st.collector.resources names ↔ _
    unfold filter_btreemap
    rw [List.mem_filter, decide_eq_true_eq]
  · intro kv
    show kv ∈ filter_btreemap st.extension_module_states names ↔ _
    unfold filter_btreemap
    rw [List.mem_filter, decide_eq_true_eq]

/-- C8: adding module foo through relative-path source placement with payload
42 and an empty prefix and then packaging yields exactly one auxiliary file,
at path foo.py with content 42 and the executable flag false, and exactly one
resource entry, named foo with flavor Module and package flag false — for
every compiler and filesystem environment, neither of which this scenario
consults. -/
theorem C8_relative_source_scenario (cc : Compiler) (fs : FileSys) :
    (stRelTest.add_relative_path_module_source modFoo []).bind
      (fun st1 => st1.package cc fs) =
    Except.ok
      { resources := [(chars "foo",
          { flavor := ResourceFlavor.Module, name := chars "foo",
            is_package := false })],
        extra_files := [(chars "foo.py", { data := [42], executable := false })],
        extension_modules := [] } := rfl

/-- C9: registering builtin extension module foo.bar with object payload 42
and no libraries produces a build state with exactly one in-memory object
file wrapping 42 and every dependency set empty; in general a pair is in the
builtin-extensions list exactly when its module's build state declares that
initialization function, so packaging this collection (whose only state
declares none) lists no builtin extensions. -/
theorem C9_builtin_extension_module_scenario :
    (Except.map (fun st1 : PrePackagedResources =>
        mapLookup (chars "foo.bar") st1.extension_module_states)
      (stMemTest.add_builtin_extension_module pemFooBar) =
      Except.ok (some
        { init_fn := none, link_object_files := [DataLocation.Memory [42]],
          link_frameworks := [], link_system_libraries := [],
          link_static_libraries := [], link_dynamic_libraries := [],
          link_external_libraries := [] })) ∧
    (∀ (r : EmbeddedPythonResources) (n i : Str),
      (n, i) ∈ r.builtin_extensions ↔
        ∃ s, (n, s) ∈ r.extension_modules ∧ s.init_fn = some i) ∧
    (Except.map (fun r : EmbeddedPythonResources => r.builtin_extensions)
      ((stMemTest.add_builtin_extension_module pemFooBar).bind
        (fun st1 => st1.package ccTest fsTest)) = Except.ok []) := by
  refine ⟨rfl, ?_, rfl⟩
  intro r n i
  unfold EmbeddedPythonResources.builtin_extensions
  rw [List.mem_filterMap]
  constructor
  · rintro ⟨kv, hkv, hf⟩
    cases hfn : kv.2.init_fn with
    | none =>
      rw [hfn] at hf
      cases hf
    | some j =>
      rw [hfn] at hf
      injection hf with hf
      injection hf with h1 h2
      subst h1
      subst h2
      refine ⟨kv.2, ?_, hfn⟩
      rw [Prod.mk.eta]
      exact hkv
  · rintro ⟨s, hs, hfn⟩
    refine ⟨(n, s), hs, ?_⟩
    show (match (n, s).2.init_fn with
      | some init_fn => some ((n, s).1, init_fn)
      | none => none) = some (n, i)
    rw [show (n, s).2.init_fn = s.init_fn from rfl, hfn]

/-- C10: adding a builtin distribution extension module performs no policy
check and succeeds for every collection state, so it can never fail with a
policy violation; and when the module is builtin by default the recorded
build state links no object files even when object paths are supplied. -/
theorem C10_builtin_distribution_add_always_succeeds
    (st : PrePackagedResources) (module : DistributionExtensionModule) :
    (st.add_builtin_distribution_extension_module module =
      Except.ok { st with
        extension_module_states :=
          mapInsert module.module (distBuildState module) st.extension_module_states }) ∧
    (module.builtin_default = true →
      (mapLookup module.module
        (mapInsert module.module (distBuildState module)
          st.extension_module_states)).map
        (fun s => s.link_object_files) = some []) := by
  constructor
  · rfl
  · intro h
    rw [mapLookup_insert_self_any]
    simp [distBuildState, h]

end PyOx

namespace PyOx

/- ===================== claim theorems (second batch) ==================== -/

/-- Keys of an ordered map are strictly increasing. -/
theorem mapOrdered_keys_pairwise {V : Type} {m : Map V} (h : MapOrdered m) :
    List.Pairwise (fun a b : Str => a < b) (mapKeys m) :=
  (List.pairwise_map).mpr h

/-- Unfolding equation of the ancestor pass as a generic upsert fold. -/
theorem inferPackageEntries_eq (derived : List Str) (res : Map Resource) :
    inferPackageEntries derived res =
      foldUpsert (fun p => { name := p })
        (fun e => if e.is_package then e else { e with is_package := true })
        derived res := rfl

/-- Unfolding equation of parent-package population as a generic upsert
fold. -/
theorem populate_parent_packages_eq (m : Map PrePackagedResource) :
    populate_parent_packages m =
      foldUpsert (fun p => { flavor := ResourceFlavor.Package, name := p })
        (fun e => { e with is_package := true })
        (packages_from_module_names (mapKeys m)) m := rfl

/-- Inversion of a successful package run into its three stages. -/
theorem package_ok_inv {st : PrePackagedResources} {cc : Compiler}
    {fs : FileSys} {r : EmbeddedPythonResources}
    (h : st.package cc fs = Except.ok r) :
    ∃ extra0 pair,
      st.derive_extra_files fs = Except.ok extra0 ∧
      processAll cc fs (populate_parent_packages st.collector.resources)
        ([], extra0) = Except.ok pair ∧
      r = packageResult st pair := by
  unfold PrePackagedResources.package at h
  revert h
  cases hde : st.derive_extra_files fs with
  | error e =>
    intro h
    exact Except.noConfusion h
  | ok extra0 =>
    intro h
    replace h : packageAfterExtra st cc fs extra0 = Except.ok r := h
    unfold packageAfterExtra at h
    revert h
    cases hpa : processAll cc fs
        (populate_parent_packages st.collector.resources) ([], extra0) with
    | error e =>
      intro h
      exact Except.noConfusion h
    | ok pair =>
      intro h
      refine ⟨extra0, pair, rfl, hpa, ?_⟩
      have h2 : Except.ok (packageResult st pair) = Except.ok r := h
      injection h2 with h3
      exact h3.symm

/-- One occurrence in a duplicate-free list counts once. -/
theorem count_eq_one_of_nodup_mem {x : Str} {l : List Str} (hnd : l.Nodup)
    (hm : x ∈ l) : l.count x = 1 := by
  induction l with
  | nil => cases hm
  | cons y rest ih =>
    rw [List.count_cons]
    rcases List.mem_cons.mp hm with he | hmem
    · subst he
      have hx : x ∉ rest := (List.nodup_cons.mp hnd).1
      rw [List.count_eq_zero.mpr hx]
      simp
    · have hne : y ≠ x := by
        intro he
        subst he
        exact (List.nodup_cons.mp hnd).1 hmem
      rw [ih (List.nodup_cons.mp hnd).2 hmem]
      simp [hne]

/-- C4: the linking plan concatenates object files in table iteration order
and keeps four deduplicated dependency-name sets with the static and dynamic
libraries merged into one; in particular two build states that both require
system library z contribute exactly one z entry, and the plan depends only on
the extension module table. -/
theorem C4_linking_resolution_dedup (r : EmbeddedPythonResources)
    (n1 n2 : Str) (s1 s2 : ExtensionModuleBuildState)
    (h1 : (n1, s1) ∈ r.extension_modules)
    (h2 : (n2, s2) ∈ r.extension_modules)
    (hz1 : chars "z" ∈ s1.link_system_libraries)
    (hz2 : chars "z" ∈ s2.link_system_libraries) :
    ((r.resolve_libpython_linking_info).object_files =
      (r.extension_modules.map (fun kv => kv.2.link_object_files)).flatten) ∧
    ((r.resolve_libpython_linking_info).link_system_libraries.count
      (chars "z") = 1) ∧
    (∀ x : Str, x ∈ (r.resolve_libpython_linking_info).link_libraries ↔
      ∃ kv ∈ r.extension_modules,
        x ∈ kv.2.link_static_libraries ∨ x ∈ kv.2.link_dynamic_libraries) ∧
    (r.resolve_libpython_linking_info).link_frameworks.Nodup ∧
    (r.resolve_libpython_linking_info).link_system_libraries.Nodup ∧
    (r.resolve_libpython_linking_info).link_libraries.Nodup ∧
    (r.resolve_libpython_linking_info).link_libraries_external.Nodup ∧
    (∀ (res : Map Resource) (ef : FileManifest),
      EmbeddedPythonResources.resolve_libpython_linking_info
        { resources := res, extra_files := ef,
          extension_modules := r.extension_modules } =
        r.resolve_libpython_linking_info) := by
  have hord := resolveAux_ordered r.extension_modules
    { object_files := [], link_libraries := [], link_frameworks := [],
      link_system_libraries := [], link_libraries_external := [] }
    List.Pairwise.nil List.Pairwise.nil List.Pairwise.nil List.Pairwise.nil
  refine ⟨?_, ?_, ?_, ?_, ?_, ?_, ?_, ?_⟩
  · show (resolveAux r.extension_modules _).object_files = _
    rw [resolveAux_object_files]
    rfl
  · apply count_eq_one_of_nodup_mem
    · exact setOrdered_nodup hord.2.1
    · show chars "z" ∈ (resolveAux _ _).link_system_libraries
      rw [resolveAux_mem_system]
      exact Or.inr ⟨(n1, s1), h1, hz1⟩
  · intro x
    show x ∈ (resolveAux _ _).link_libraries ↔ _
    rw [resolveAux_mem_libraries]
    constructor
    · rintro (h | h)
      · cases h
      · exact h
    · exact fun h => Or.inr h
  · exact setOrdered_nodup hord.1
  · exact setOrdered_nodup hord.2.1
  · exact setOrdered_nodup hord.2.2.1
  · exact setOrdered_nodup hord.2.2.2
  · intro res ef
    rfl

/-- A build state requiring system library z, for the C4 witness. -/
def emsZ : ExtensionModuleBuildState :=
  { init_fn := none, link_object_files := [], link_frameworks := [],
    link_system_libraries := [chars "z"], link_static_libraries := [],
    link_dynamic_libraries := [], link_external_libraries := [] }

/-- A packaging result with two extension modules both requiring z. -/
def rC4 : EmbeddedPythonResources :=
  { resources := [], extra_files := [],
    extension_modules := [(chars "a", emsZ), (chars "b", emsZ)] }

/-- Witness for C4: over two modules both requiring z the merged system set
holds exactly one z. -/
theorem C4_linking_resolution_dedup_witness :
    (rC4.resolve_libpython_linking_info).link_system_libraries.count
      (chars "z") = 1 :=
  (C4_linking_resolution_dedup rC4 (chars "a") (chars "b") emsZ emsZ
    (by decide) (by decide) (by decide) (by decide)).2.1

/-- C6: for any successful packaging run, the newline-delimited name stream
is exactly the resource-table keys in iteration order, and that order is
lexicographically strictly increasing, whatever order the resources were
added in (the output table is rebuilt by ordered insertion). -/
theorem C6_name_list_lexicographic (st : PrePackagedResources) (cc : Compiler)
    (fs : FileSys) (r : EmbeddedPythonResources)
    (hok : st.package cc fs = Except.ok r) :
    r.write_blobs_module_names =
      ((mapKeys r.resources).map (fun n => n ++ ['\n'])).flatten ∧
    List.Pairwise (fun a b : Str => a < b) (mapKeys r.resources) := by
  constructor
  · show (mapKeys r.resources).foldl (fun acc n => acc ++ n ++ ['\n']) [] = _
    rw [foldl_append_newline]
    rfl
  · obtain ⟨extra0, pair, hde, hpa, hr⟩ := package_ok_inv hok
    have hord0 : MapOrdered pair.1 := by
      apply processAll_ordered _ hpa
      exact List.Pairwise.nil
    have : MapOrdered r.resources := by
      rw [hr]
      show MapOrdered (inferPackageEntries _ pair.1)
      rw [inferPackageEntries_eq]
      exact foldUpsert_ordered _ _ _ hord0
    exact mapOrdered_keys_pairwise this

end PyOx

namespace PyOx

/-- A distribution extension module with the three-level dotted name of the
ancestor scenario. -/
def demABC : DistributionExtensionModule :=
  { module := chars "a.b.c", init_fn := none, builtin_default := true,
    object_paths := [], shared_library := none, links := [] }

/-- The fixture collection holding only the extension module a.b.c. -/
def stABC : PrePackagedResources :=
  match stRelTest.add_builtin_distribution_extension_module demABC with
  | .ok st => st
  | .error _ => stRelTest

/-- The packaging result of the a.b.c fixture. -/
def rABC : EmbeddedPythonResources :=
  match stABC.package ccTest fsTest with
  | .ok r => r
  | .error _ => { resources := [], extra_files := [], extension_modules := [] }

/-- Witness for C6 at the a.b.c fixture. -/
theorem C6_name_list_lexicographic_witness :
    rABC.write_blobs_module_names =
      ((mapKeys rABC.resources).map (fun n => n ++ ['\n'])).flatten ∧
    List.Pairwise (fun a b : Str => a < b) (mapKeys rABC.resources) :=
  C6_name_list_lexicographic stABC ccTest fsTest rABC rfl

/-- C3: for every dotted name in the finalized resource table or the
extension module build state table of a successful packaging run, every
ancestor package name is present in the result's resource table with its
package flag true; an ancestor that was absent from the collector's table
beforehand is a fresh entry with flavor Package and no bytecode payloads.  A
package flag found false is corrected rather than failing: the correcting
pass is total, so it never prevents the success assumed here. -/
theorem C3_ancestor_packages (st : PrePackagedResources) (cc : Compiler)
    (fs : FileSys) (r : EmbeddedPythonResources)
    (hord : MapOrdered st.collector.resources)
    (hok : st.package cc fs = Except.ok r)
    (name : Str)
    (hname : name ∈ mapKeys r.resources ∨ name ∈ mapKeys r.extension_modules)
    (p : Str) (hp : p ∈ ancestors name) :
    ∃ e, mapLookup p r.resources = some e ∧ e.is_package = true ∧
      (mapLookup p st.collector.resources = none →
        e.flavor = ResourceFlavor.Package ∧
        e.in_memory_bytecode = none ∧
        e.in_memory_bytecode_opt1 = none ∧
        e.in_memory_bytecode_opt2 = none ∧
        e.relative_path_module_bytecode = none ∧
        e.relative_path_module_bytecode_opt1 = none ∧
        e.relative_path_module_bytecode_opt2 = none) := by
  obtain ⟨extra0, pair, hde, hpa, hr⟩ := package_ok_inv hok
  set derived := setInsertAll (packages_from_module_names (mapKeys pair.1))
    (packages_from_module_names (mapKeys st.extension_module_states))
    with hderived
  have hres : r.resources =
      foldUpsert (fun q => ({ name := q } : Resource))
        (fun e => if e.is_package then e else { e with is_package := true })
        derived pair.1 := by
    rw [hr]
    rfl
  have hext : r.extension_modules = st.extension_module_states := by
    rw [hr]
    rfl
  have hordIn : MapOrdered (populate_parent_packages st.collector.resources) := by
    rw [populate_parent_packages_eq]
    exact foldUpsert_ordered _ _ _ hord
  have hord0 : MapOrdered pair.1 := by
    apply processAll_ordered _ hpa
    exact List.Pairwise.nil
  have hordD : SetOrdered derived := by
    rw [hderived]
    exact setInsertAll_ordered _ (packages_from_ordered _)
  have hndD := setOrdered_nodup hordD
  have hpd : p ∈ derived := by
    rcases hname with hname | hname
    · rw [hres, mem_keys_foldUpsert] at hname
      rcases hname with hname | hname
      · rw [hderived, mem_setInsertAll] at hname
        rw [hderived, mem_setInsertAll]
        rcases hname with hname | hname
        · rcases (mem_packages_from _ _).mp hname with ⟨n, hn, ha⟩
          exact Or.inl ((mem_packages_from _ _).mpr ⟨n, hn, ancestors_trans ha hp⟩)
        · rcases (mem_packages_from _ _).mp hname with ⟨n, hn, ha⟩
          exact Or.inr ((mem_packages_from _ _).mpr ⟨n, hn, ancestors_trans ha hp⟩)
      · rw [hderived, mem_setInsertAll]
        exact Or.inl ((mem_packages_from _ _).mpr ⟨name, hname, hp⟩)
    · rw [hext] at hname
      rw [hderived, mem_setInsertAll]
      exact Or.inr ((mem_packages_from _ _).mpr ⟨name, hname, hp⟩)
  have hlook := @mapLookup_foldUpsert_mem Resource
    (fun q => ({ name := q } : Resource))
    (fun e => if e.is_package then e else { e with is_package := true })
    p derived pair.1 hndD hpd hord0
  rw [← hres] at hlook
  cases hres0 : mapLookup p pair.1 with
  | none =>
    rw [hres0] at hlook
    refine ⟨_, hlook, inferFlag_is_package _, ?_⟩
    intro _
    exact ⟨rfl, rfl, rfl, rfl, rfl, rfl, rfl⟩
  | some e0 =>
    rw [hres0] at hlook
    refine ⟨_, hlook, inferFlag_is_package e0, ?_⟩
    intro h0
    have hpk : p ∈ mapKeys pair.1 :=
      List.mem_map_of_mem Prod.fst (mapLookup_mem hres0)
    have hpin : p ∈ mapKeys (populate_parent_packages st.collector.resources) := by
      rcases (processAll_keys hpa p).mp hpk with h | h
      · exact h
      · simp only [mapKeys, List.map_nil] at h
        cases h
    have hppkg : p ∈ packages_from_module_names (mapKeys st.collector.resources) := by
      rw [populate_parent_packages_eq, mem_keys_foldUpsert] at hpin
      rcases hpin with h | h
      · exact h
      · exact absurd h ((mapLookup_eq_none_iff _ _).mp h0)
    have hlookIn : mapLookup p (populate_parent_packages st.collector.resources) =
        some { flavor := ResourceFlavor.Package, name := p, is_package := true } := by
      rw [populate_parent_packages_eq]
      rw [@mapLookup_foldUpsert_mem PrePackagedResource
        (fun q => { flavor := ResourceFlavor.Package, name := q })
        (fun e => { e with is_package := true })
        p (packages_from_module_names (mapKeys st.collector.resources))
        st.collector.resources
        (setOrdered_nodup (packages_from_ordered _)) hppkg hord]
      rw [h0]
      rfl
    have hlook0 := processAll_lookup_mem hpa (mapOrdered_keys_nodup hordIn)
      (mapLookup_mem hlookIn)
    rw [hres0] at hlook0
    injection hlook0 with he0
    subst he0
    exact ⟨rfl, rfl, rfl, rfl, rfl, rfl, rfl⟩

/-- Witness for C3 at the a.b.c fixture: the ancestor a of a.b.c, absent
beforehand, is present in the result with package flag true and the fresh
Package-flavored empty entry. -/
theorem C3_ancestor_packages_witness :
    ∃ e, mapLookup (chars "a") rABC.resources = some e ∧ e.is_package = true ∧
      (mapLookup (chars "a") stABC.collector.resources = none →
        e.flavor = ResourceFlavor.Package ∧
        e.in_memory_bytecode = none ∧
        e.in_memory_bytecode_opt1 = none ∧
        e.in_memory_bytecode_opt2 = none ∧
        e.relative_path_module_bytecode = none ∧
        e.relative_path_module_bytecode_opt1 = none ∧
        e.relative_path_module_bytecode_opt2 = none) :=
  C3_ancestor_packages stABC ccTest fsTest rABC List.Pairwise.nil rfl
    (chars "a.b.c") (Or.inr (by decide)) (chars "a") (by decide)

end PyOx
